import Mathlib

/-!
Verification development for the Baja_Data telemetry pipeline.

Shallow embedding of:
- `raspi_lora/gps_reader.py` (`I2CGPS._ubx_checksum`, `I2CGPS._try_parse_buf`,
  `I2CGPS._parse_nav_posllh`, the feed/extract loop of `I2CGPS.get_fix`);
- `raspi_lora/packet.py` (`make_packet`);
- `raspi_lora/lora_serial.py` (`LoRaSerial.send_packet`,
  `LoRaSerial._build_at_send_command`, `LoRaSerial._send_at_command`,
  `LoRaSerial.__init__`).

Bytes are modelled as `Nat` (values below 256 where the code relies on it),
byte strings as `List Nat`, Python floats as `ℚ`, fallible channel
operations as `Except`/outcome inductives, and wall-clock response windows
as the finite list of lines the channel yields before the deadline.
-/

namespace Baja

/-! ### UBX framing (`gps_reader.py`, class `I2CGPS`) -/

/-- One step of `I2CGPS._ubx_checksum`'s loop:
`ck_a = (ck_a + b) & 0xFF; ck_b = (ck_b + ck_a) & 0xFF`. -/
def ubxStep (ck : Nat × Nat) (b : Nat) : Nat × Nat :=
  let a := (ck.1 + b) % 256
  (a, (ck.2 + a) % 256)

/-- `I2CGPS._ubx_checksum`: Fletcher-style dual accumulator over `data`,
starting from `(0, 0)`; the Python function returns `bytes([ck_a, ck_b])`. -/
def ubxChecksum (data : List Nat) : Nat × Nat :=
  data.foldl ubxStep (0, 0)

/-- `buf.find(b"\xb5\x62")`: index of the earliest occurrence of the 2-byte
UBX sync marker, `none` when Python would return `-1`. -/
def findSync : List Nat → Option Nat
  | a :: b :: rest =>
    if a = 0xB5 ∧ b = 0x62 then some 0 else (findSync (b :: rest)).map (· + 1)
  | _ => none

/-- The little-endian length field `buf[idx+4] | (buf[idx+5] << 8)`
read by `_try_parse_buf`. -/
def lengthField (buf : List Nat) (idx : Nat) : Nat :=
  Nat.lor (buf.getD (idx + 4) 0) (Nat.shiftLeft (buf.getD (idx + 5) 0) 8)

/-- The two checksum bytes `_ubx_checksum(msg[2 : 6 + length])` computed by
`_try_parse_buf` over class, id, length field and payload of a frame slice. -/
def ckBytes (msg : List Nat) (length : Nat) : List Nat :=
  [(ubxChecksum ((msg.drop 2).take (4 + length))).1,
   (ubxChecksum ((msg.drop 2).take (4 + length))).2]

/-- The trailing checksum bytes `msg[6 + length : 6 + length + 2]` of a
frame slice. -/
def trailBytes (msg : List Nat) (length : Nat) : List Nat :=
  (msg.drop (6 + length)).take 2

/-- A parsed UBX frame `(msg_class, msg_id, payload)`. -/
abbrev UbxFrame := Nat × Nat × List Nat

/-- The part of `I2CGPS._try_parse_buf` that runs once the sync marker has
been found at `idx`: length decoding, completeness checks, checksum
verification, and buffer surgery. -/
def tryParseAt (buf : List Nat) (idx : Nat) : List Nat × Option UbxFrame :=
  -- `length = buf[idx+4] | (buf[idx+5] << 8)`; `total = idx + 6 + length + 2`;
  -- `msg = bytes(buf[idx:total])`, i.e. `(buf.drop idx).take (total - idx)`
  -- with `total - idx = 6 + length + 2`.
  if buf.length < idx + 6 then (buf, none)
  else if buf.length < idx + 6 + lengthField buf idx + 2 then (buf, none)
  else if ckBytes ((buf.drop idx).take (6 + lengthField buf idx + 2)) (lengthField buf idx) ≠
      trailBytes ((buf.drop idx).take (6 + lengthField buf idx + 2)) (lengthField buf idx) then
    -- checksum mismatch: `del buf[idx : idx + 2]`
    (buf.take idx ++ buf.drop (idx + 2), none)
  else
    -- valid frame: `del buf[:total]`
    (buf.drop (idx + 6 + lengthField buf idx + 2),
     some (((buf.drop idx).take (6 + lengthField buf idx + 2)).getD 2 0,
           ((buf.drop idx).take (6 + lengthField buf idx + 2)).getD 3 0,
           (((buf.drop idx).take (6 + lengthField buf idx + 2)).drop 6).take
             (lengthField buf idx)))

/-- `I2CGPS._try_parse_buf`, with the mutable `self._buf` made explicit:
takes the buffer, returns the buffer after the call together with the
extracted frame (`none` when the Python method returns `None`). -/
def tryParseBuf (buf : List Nat) : List Nat × Option UbxFrame :=
  match findSync buf with
  | none =>
    -- no sync header: `if len(buf) > 2: del buf[:-2]`
    if buf.length > 2 then (buf.drop (buf.length - 2), none) else (buf, none)
  | some idx => tryParseAt buf idx

/-- The class/id/length/payload region of a well-formed UBX frame:
the bytes the checksum is computed over. -/
def frameBody (cls id : Nat) (payload : List Nat) : List Nat :=
  cls :: id :: payload.length % 256 :: payload.length / 256 :: payload

/-- A well-formed UBX frame for the given class, id and payload:
sync marker, body, and the Fletcher checksum pair of the body
(the wire layout documented in `_try_parse_buf`). -/
def mkFrame (cls id : Nat) (payload : List Nat) : List Nat :=
  0xB5 :: 0x62 ::
    (frameBody cls id payload ++
      [(ubxChecksum (frameBody cls id payload)).1,
       (ubxChecksum (frameBody cls id payload)).2])

/-- The feed/extract loop of `I2CGPS.get_fix`: extend the buffer with each
chunk in turn (`self._buf.extend(chunk)`), call `_try_parse_buf` once after
each chunk, and collect every frame extracted along the way. -/
def runChunks : List Nat → List (List Nat) → List Nat × List UbxFrame
  | st, [] => (st, [])
  | st, ch :: cs =>
    ((runChunks (tryParseBuf (st ++ ch)).1 cs).1,
     (tryParseBuf (st ++ ch)).2.toList ++ (runChunks (tryParseBuf (st ++ ch)).1 cs).2)

/-! ### NAV-POSLLH decoding (`gps_reader.py`, `I2CGPS._parse_nav_posllh`).
Python floats are modelled as exact rationals. -/

/-- Little-endian unsigned 32-bit read at byte offset `off`
(`struct` format `<I`). -/
def leU32 (bs : List Nat) (off : Nat) : Nat :=
  bs.getD off 0 + bs.getD (off + 1) 0 * 256 + bs.getD (off + 2) 0 * 65536 +
    bs.getD (off + 3) 0 * 16777216

/-- Little-endian signed 32-bit read at byte offset `off`
(`struct` format `<i`, two's complement). -/
def leI32 (bs : List Nat) (off : Nat) : Int :=
  if leU32 bs off < 2 ^ 31 then (leU32 bs off : Int)
  else (leU32 bs off : Int) - 2 ^ 32

/-- The dict returned by `_parse_nav_posllh` on a sufficiently long
payload: `stamp` is always `None`, positions are rational degrees/meters. -/
structure NavFix where
  stamp : Option String
  lat : ℚ
  lon : ℚ
  alt : ℚ
deriving DecidableEq

/-- `I2CGPS._parse_nav_posllh`: payloads shorter than 28 bytes yield no fix;
otherwise unpack `<IiiiI` at offset 0 (`iTOW, lon, lat, height, hMSL`) and
convert: `lat * 1e-7`, `lon * 1e-7`, `float(height) / 1000.0`. -/
def parseNavPosllh (payload : List Nat) : Option NavFix :=
  if payload.length < 28 then none
  else some { stamp := none
            , lat := (leI32 payload 8 : ℚ) * (1 / 10000000)
            , lon := (leI32 payload 4 : ℚ) * (1 / 10000000)
            , alt := (leI32 payload 12 : ℚ) / 1000 }

/-- Little-endian 4-byte two's-complement encoding of an integer, used to
build concrete NAV-POSLLH payloads from raw field values. -/
def i32ToLeBytes (x : Int) : List Nat :=
  [(x.emod (2 ^ 32)).toNat % 256,
   (x.emod (2 ^ 32)).toNat / 256 % 256,
   (x.emod (2 ^ 32)).toNat / 65536 % 256,
   (x.emod (2 ^ 32)).toNat / 16777216 % 256]

/-! ### Telemetry packets (`packet.py`, `make_packet`).

`make_packet` takes the GPS dict and returns UTF-8 JSON bytes produced by
`json.dumps(pkg, separators=(",", ":"))`. The encode-time UTC timestamp
`datetime.now(UTC)...` is passed in as the explicit parameter `now`. The
output is modelled as the list of characters of the JSON text (its UTF-8
encoding is the Python return value; the newline character U+000A is the
only character whose UTF-8 encoding contains the newline byte). Numeric
literal rendering is modelled by a fixed decimal/rational printer; the
claims proved below do not depend on the concrete digits chosen. -/

/-- A 3-axis inertial sample, the value stored under the `imu` key. -/
structure ImuSample where
  accel : List ℚ
  gyro : List ℚ
deriving DecidableEq

/-- The GPS fix dict consumed by `make_packet` (keys `stamp`, `lat`, `lon`,
`alt`, `fix`, `num_sats`, `hdop`, optional `imu`); a `none` field stands
for an absent key (`dict.get` returns `None`). -/
structure Fix where
  stamp : Option String
  lat : Option ℚ
  lon : Option ℚ
  alt : Option ℚ
  fix : Option Int
  num_sats : Option Int
  hdop : Option ℚ
  imu : Option ImuSample
deriving DecidableEq

/-- JSON values occurring in a telemetry packet. -/
inductive JVal where
  | null : JVal
  | jstr : String → JVal
  | jnum : ℚ → JVal
  | jint : Int → JVal
  | jimu : ImuSample → JVal
deriving DecidableEq

/-- An optional float field: JSON `null` when the key is absent. -/
def optNum : Option ℚ → JVal
  | none => JVal.null
  | some q => JVal.jnum q

/-- An optional integer field: JSON `null` when the key is absent. -/
def optInt : Option Int → JVal
  | none => JVal.null
  | some n => JVal.jint n

/-- The timestamp chosen by `make_packet`: `ts = gps_data.get("stamp")`,
then `if not ts: ts = <now>` — a missing stamp AND a present-but-empty
stamp are both replaced by the encode-time timestamp, because the empty
string is falsy in Python. -/
def tsValue (stamp : Option String) (now : String) : String :=
  match stamp with
  | some s => if s = "" then now else s
  | none => now

/-- The ordered key/value pairs of the `pkg` dict built by `make_packet`
(insertion order, which `json.dumps` preserves); the `imu` entry is added
only when the input dict carries the `imu` key. -/
def makePacketObj (f : Fix) (now : String) : List (String × JVal) :=
  [("ts", JVal.jstr (tsValue f.stamp now)),
   ("lat", optNum f.lat), ("lon", optNum f.lon), ("alt", optNum f.alt),
   ("fix", optInt f.fix), ("sats", optInt f.num_sats), ("hdop", optNum f.hdop)]
  ++ (match f.imu with | some m => [("imu", JVal.jimu m)] | none => [])

/-- A single decimal digit character (only ever applied to `n % 10`). -/
def digitChar : Nat → Char
  | 0 => '0' | 1 => '1' | 2 => '2' | 3 => '3' | 4 => '4'
  | 5 => '5' | 6 => '6' | 7 => '7' | 8 => '8' | _ => '9'

/-- Fuelled decimal conversion: with fuel at least `n`, converts `n` to its
decimal digits (most significant first), prepending to `acc`. -/
def digitCharsGo (fuel n : Nat) (acc : List Char) : List Char :=
  match fuel, n with
  | _, 0 => acc
  | 0, _ => acc
  | fuel + 1, n + 1 =>
    digitCharsGo fuel ((n + 1) / 10) (digitChar ((n + 1) % 10) :: acc)

/-- Decimal digit characters of a natural number, as Python's `str`/`repr`
would print it. -/
def digitChars (n : Nat) : List Char :=
  if n = 0 then ['0'] else digitCharsGo n n []

/-- Decimal rendering of an integer (sign, then digits). -/
def renderInt (x : Int) : List Char :=
  (if x < 0 then ['-'] else []) ++ digitChars x.natAbs

/-- Rendering of a rational number (stand-in for Python's float `repr`;
the claims below do not depend on the digits chosen). -/
def renderRat (q : ℚ) : List Char :=
  renderInt q.num ++ (if q.den = 1 then [] else '/' :: digitChars q.den)

/-- A single lowercase hexadecimal digit character (only ever applied to
values below 16). -/
def hexDigitChar : Nat → Char
  | 0 => '0' | 1 => '1' | 2 => '2' | 3 => '3' | 4 => '4'
  | 5 => '5' | 6 => '6' | 7 => '7' | 8 => '8' | 9 => '9'
  | 10 => 'a' | 11 => 'b' | 12 => 'c' | 13 => 'd' | 14 => 'e' | _ => 'f'

/-- JSON string escaping of one character, as `json.dumps` performs it:
quote, backslash and control characters are escaped (`\n`, `\r`, `\t`,
`\u00xx`); other characters pass through. (CPython with `ensure_ascii`
additionally escapes characters above U+007F; the packet fields are ASCII
timestamps and numbers, and the escape is immaterial to the properties
proved here.) -/
def escapeChar (c : Char) : List Char :=
  if c = '"' then ['\\', '"']
  else if c = '\\' then ['\\', '\\']
  else if c = '\n' then ['\\', 'n']
  else if c = '\r' then ['\\', 'r']
  else if c = '\t' then ['\\', 't']
  else if c.toNat < 32 then
    ['\\', 'u', '0', '0', hexDigitChar (c.toNat / 16), hexDigitChar (c.toNat % 16)]
  else [c]

/-- JSON string escaping of a whole string. -/
def escapeString (s : String) : List Char :=
  (s.toList.map escapeChar).flatten

/-- Comma-separated concatenation: the `","` item separator of
`json.dumps(pkg, separators=(",", ":"))`. -/
def sepList : List (List Char) → List Char
  | [] => []
  | [x] => x
  | x :: y :: xs => x ++ ',' :: sepList (y :: xs)

/-- Serialization of the `imu` dict `{"accel": [...], "gyro": [...]}` with
compact separators. -/
def serializeImu (m : ImuSample) : List Char :=
  '\x7b' :: "\"accel\":[".toList ++ sepList (m.accel.map renderRat) ++
    "],\"gyro\":[".toList ++ sepList (m.gyro.map renderRat) ++ [']', '\x7d']

/-- Serialization of one JSON value. -/
def serializeJVal : JVal → List Char
  | JVal.null => "null".toList
  | JVal.jstr s => '"' :: (escapeString s ++ ['"'])
  | JVal.jnum q => renderRat q
  | JVal.jint x => renderInt x
  | JVal.jimu m => serializeImu m

/-- Serialization of one `"key":value` member, using the `":"` key
separator of `json.dumps(pkg, separators=(",", ":"))`. -/
def serializeField (kv : String × JVal) : List Char :=
  '"' :: (escapeString kv.1 ++ ['"', ':'] ++ serializeJVal kv.2)

/-- Serialization of a JSON object with compact separators. -/
def serializeObj (fields : List (String × JVal)) : List Char :=
  '\x7b' :: (sepList (fields.map serializeField) ++ ['\x7d'])

/-- `make_packet`: build the ordered `pkg` dict and serialize it with
`json.dumps(pkg, separators=(",", ":"))`. -/
def makePacket (f : Fix) (now : String) : List Char :=
  serializeObj (makePacketObj f now)

/-! ### LoRa serial link (`lora_serial.py`, class `LoRaSerial`).

The serial channel is modelled by its observable behavior during one call:
for transparent mode, the outcomes of the `write` and `flush` calls
(`Except.error` when the call raises); for command mode, either a raised
channel exception or the finite list of raw lines `readline` yields before
the response deadline. Wall-clock time does not otherwise influence the
control flow. -/

/-- Python whitespace, as removed by `str.strip()`. -/
def isPySpace (c : Char) : Bool :=
  c = ' ' || c = '\t' || c = '\n' || c = '\r' || c = '\x0b' || c = '\x0c'

/-- Python `str.strip()`: remove leading and trailing whitespace. -/
def pyStrip (s : String) : String :=
  ⟨((s.data.dropWhile isPySpace).reverse.dropWhile isPySpace).reverse⟩

/-- ASCII uppercase of one character (`str.upper()` restricted to the
ASCII range; the terminal tokens compared against are all ASCII). -/
def asciiUpper (c : Char) : Char :=
  if 97 ≤ c.toNat ∧ c.toNat ≤ 122 then Char.ofNat (c.toNat - 32) else c

/-- Python `str.upper()` on the line (character-wise ASCII uppercase). -/
def pyUpper (s : String) : String := ⟨s.data.map asciiUpper⟩

/-- Python's `needle in hay` substring test for strings. -/
def substr (needle hay : String) : Bool :=
  (List.range (hay.data.length + 1)).any fun k =>
    needle.data.isPrefixOf (hay.data.drop k)

/-- `any(token in upper for token in ("OK", "SEND", "ERROR", "FAIL"))` on
`text.upper()`: the terminal-token test that breaks the response loop. -/
def isTerminalLine (text : String) : Bool :=
  substr "OK" (pyUpper text) || substr "SEND" (pyUpper text) ||
    substr "ERROR" (pyUpper text) || substr "FAIL" (pyUpper text)

/-- `"OK" in line.upper() or "SEND" in line.upper()`: the success test
applied by `send_packet` to each collected response line. -/
def isSuccessLine (text : String) : Bool :=
  substr "OK" (pyUpper text) || substr "SEND" (pyUpper text)

/-- The response-collection loop of `_send_at_command`: each raw line is
decoded and stripped; empty lines are skipped; a stripped line is appended
to `responses`, and collection stops after the first line containing a
terminal token (otherwise it continues until the deadline, i.e. until the
supplied lines run out). -/
def collectResponses : List String → List String
  | [] => []
  | l :: ls =>
    if pyStrip l = "" then collectResponses ls
    else if isTerminalLine (pyStrip l) then [pyStrip l]
    else pyStrip l :: collectResponses ls

/-- The observable channel behavior during one command-mode exchange. -/
inductive CmdOutcome where
  | raised : CmdOutcome
  | lines : List String → CmdOutcome

/-- `send_packet` in AT-command mode: any exception from the underlying
channel operations is caught and yields `False`; otherwise the collected
responses decide success (`if not responses: return False`, then
`any("OK" in ... or "SEND" in ...)`). -/
def sendPacketCmd (o : CmdOutcome) : Bool :=
  match o with
  | CmdOutcome.raised => false
  | CmdOutcome.lines ls =>
    if collectResponses ls = [] then false
    else (collectResponses ls).any isSuccessLine

/-- `send_packet` in transparent mode: `self.ser.write(payload)` then
`self.ser.flush()`; an exception from either call is caught and yields
`False`; otherwise the result is `True` regardless of how many bytes the
channel accepted (a short write is only logged as a warning). -/
def sendPacketTransparent (payload : List Nat) (w : Except String Nat)
    (fl : Except String Unit) : Bool :=
  match w with
  | Except.error _ => false
  | Except.ok _ =>
    match fl with
    | Except.error _ => false
    | Except.ok _ => true

/-- `LoRaSerial.__init__`:
`self._at_response_timeout = max(timeout, 1.0)`. -/
def atResponseTimeout (timeout : ℚ) : ℚ := max timeout 1

/-- One step of UTF-8 decoding (strict, as CPython's
`bytes.decode("utf-8")`): given the lead byte `b` and the remaining bytes,
return the decoded code point and the bytes left after its encoding, or
`none` where CPython raises `UnicodeDecodeError`. Lead bytes `0x80-0xC1`
and `0xF5-0xFF` are invalid, continuation bytes must lie in `0x80-0xBF`,
and overlong encodings, surrogates (`U+D800-U+DFFF`) and values above
`U+10FFFF` are rejected. -/
def utf8Step (b : Nat) (rest : List Nat) : Option (Nat × List Nat) :=
  if b < 0x80 then some (b, rest)
  else if b < 0xC2 then none
  else if b < 0xE0 then
    match rest with
    | c1 :: rest2 =>
      if 0x80 ≤ c1 ∧ c1 < 0xC0 then
        some ((b - 0xC0) * 64 + (c1 - 0x80), rest2)
      else none
    | [] => none
  else if b < 0xF0 then
    match rest with
    | c1 :: c2 :: rest2 =>
      if (0x80 ≤ c1 ∧ c1 < 0xC0) ∧ (0x80 ≤ c2 ∧ c2 < 0xC0) ∧
          (b = 0xE0 → 0xA0 ≤ c1) ∧ (b = 0xED → c1 < 0xA0) then
        some ((b - 0xE0) * 4096 + (c1 - 0x80) * 64 + (c2 - 0x80), rest2)
      else none
    | _ => none
  else if b < 0xF5 then
    match rest with
    | c1 :: c2 :: c3 :: rest2 =>
      if (0x80 ≤ c1 ∧ c1 < 0xC0) ∧ (0x80 ≤ c2 ∧ c2 < 0xC0) ∧
          (0x80 ≤ c3 ∧ c3 < 0xC0) ∧
          (b = 0xF0 → 0x90 ≤ c1) ∧ (b = 0xF4 → c1 < 0x90) then
        some ((b - 0xF0) * 262144 + (c1 - 0x80) * 4096 + (c2 - 0x80) * 64 +
          (c3 - 0x80), rest2)
      else none
    | _ => none
  else none

/-- Fuelled UTF-8 decoding loop; each step consumes at least the lead
byte, so fuel equal to the byte count never runs out. -/
def utf8DecodeGo : Nat → List Nat → Option (List Nat)
  | _, [] => some []
  | 0, _ :: _ => none
  | fuel + 1, b :: rest =>
    match utf8Step b rest with
    | none => none
    | some (cp, rest2) => (utf8DecodeGo fuel rest2).map (cp :: ·)

/-- Python `bytes.decode("utf-8")`: the decoded code points, or `none`
where CPython raises `UnicodeDecodeError`. -/
def utf8Decode (bs : List Nat) : Option (List Nat) :=
  utf8DecodeGo bs.length bs

/-- Decimal digit bytes of a natural number (the `{len(payload)}` part of
the f-string). -/
def decDigits (n : Nat) : List Nat := (digitChars n).map Char.toNat

/-- `LoRaSerial._build_at_send_command`: decode the payload as UTF-8 with a
latin-1 fallback (in latin-1 every byte is its own code point), strip CR
and LF, format `AT+SEND=<len(payload)>,<sanitized>`, and encode the whole
command as ASCII with `errors="ignore"` (code points at or above 128 are
silently dropped). Strings are modelled by their code-point lists. -/
def buildAtSendCommand (payload : List Nat) : List Nat :=
  (("AT+SEND=".data.map Char.toNat) ++ decDigits payload.length ++ [44] ++
      ((match utf8Decode payload with
        | some cps => cps
        | none => payload).filter
        fun c => !(c == 13) && !(c == 10))).filter
    fun c => decide (c < 128)

/-! ### Framing lemmas -/

theorem lor_shiftLeft8 (a b : Nat) (h : a < 256) :
    Nat.lor a (Nat.shiftLeft b 8) = a + 256 * b := by
  show a ||| (b <<< 8) = a + 256 * b
  rw [Nat.shiftLeft_eq, Nat.lor_comm, Nat.mul_comm b (2 ^ 8),
    ← Nat.mul_add_lt_is_or (show a < 2 ^ 8 from h) b]
  ring

theorem frameBody_length (c i : Nat) (p : List Nat) :
    (frameBody c i p).length = 4 + p.length := by
  simp [frameBody]; omega

theorem mkFrame_length (c i : Nat) (p : List Nat) :
    (mkFrame c i p).length = 8 + p.length := by
  simp [mkFrame, frameBody]; omega

theorem findSync_cons2 (rest : List Nat) :
    findSync (0xB5 :: 0x62 :: rest) = some 0 := by
  simp [findSync]

theorem mkFrame_cons (c i : Nat) (p : List Nat) :
    mkFrame c i p =
      0xB5 :: 0x62 :: c :: i :: p.length % 256 :: p.length / 256 ::
        (p ++ [(ubxChecksum (frameBody c i p)).1,
               (ubxChecksum (frameBody c i p)).2]) := by
  simp [mkFrame, frameBody]

theorem findSync_mkFrame (c i : Nat) (p : List Nat) (rest : List Nat) :
    findSync (mkFrame c i p ++ rest) = some 0 := by
  rw [mkFrame_cons]
  exact findSync_cons2 _

theorem lengthField_mkFrame (c i : Nat) (p : List Nat) (rest : List Nat) :
    lengthField (mkFrame c i p ++ rest) 0 = p.length := by
  have h4 : (mkFrame c i p ++ rest).getD 4 0 = p.length % 256 := by
    rw [List.getD_append _ _ _ _ (by rw [mkFrame_length]; omega), mkFrame_cons]
    rfl
  have h5 : (mkFrame c i p ++ rest).getD 5 0 = p.length / 256 := by
    rw [List.getD_append _ _ _ _ (by rw [mkFrame_length]; omega), mkFrame_cons]
    rfl
  unfold lengthField
  rw [Nat.zero_add, h4]
  rw [show (4 : Nat) + 1 = 5 from rfl, h5]
  rw [lor_shiftLeft8 _ _ (Nat.mod_lt _ (by norm_num))]
  exact Nat.mod_add_div _ _

theorem lengthField_shift (pre X : List Nat) :
    lengthField (pre ++ X) pre.length = lengthField X 0 := by
  unfold lengthField
  rw [List.getD_append_right pre X _ _ (by omega),
    List.getD_append_right pre X _ _ (by omega)]
  simp [Nat.add_sub_cancel_left]

theorem getD_take_of_lt (l : List Nat) (n j : Nat) (h : j < n) :
    (l.take n).getD j 0 = l.getD j 0 := by
  simp [List.getD_eq_getElem?_getD, List.getElem?_take_of_lt h]

theorem mkFrame_drop2 (c i : Nat) (p : List Nat) :
    (mkFrame c i p).drop 2 =
      frameBody c i p ++
        [(ubxChecksum (frameBody c i p)).1, (ubxChecksum (frameBody c i p)).2] := by
  simp [mkFrame]

theorem ckBytes_mkFrame (c i : Nat) (p : List Nat) :
    ckBytes (mkFrame c i p) p.length =
      [(ubxChecksum (frameBody c i p)).1, (ubxChecksum (frameBody c i p)).2] := by
  unfold ckBytes
  rw [mkFrame_drop2, List.take_left' (frameBody_length c i p)]

theorem trailBytes_mkFrame (c i : Nat) (p : List Nat) :
    trailBytes (mkFrame c i p) p.length =
      [(ubxChecksum (frameBody c i p)).1, (ubxChecksum (frameBody c i p)).2] := by
  unfold trailBytes
  have h6 : (6 : Nat) + p.length = 2 + (frameBody c i p).length := by
    rw [frameBody_length]; omega
  rw [h6, ← List.drop_drop, mkFrame_drop2, List.drop_left]
  rfl

theorem tryParseAt_valid (pre : List Nat) (c i : Nat) (p rest : List Nat) :
    tryParseAt (pre ++ (mkFrame c i p ++ rest)) pre.length = (rest, some (c, i, p)) := by
  have hlen : (pre ++ (mkFrame c i p ++ rest)).length =
      pre.length + (8 + p.length) + rest.length := by
    simp [mkFrame_length]; omega
  have hLF : lengthField (pre ++ (mkFrame c i p ++ rest)) pre.length = p.length := by
    rw [lengthField_shift]
    simpa using lengthField_mkFrame c i p rest
  have hdrop : (pre ++ (mkFrame c i p ++ rest)).drop pre.length =
      mkFrame c i p ++ rest := List.drop_left _ _
  unfold tryParseAt
  rw [if_neg (by omega)]
  simp only [hLF, hdrop]
  rw [if_neg (by omega)]
  have htake : (mkFrame c i p ++ rest).take (6 + p.length + 2) = mkFrame c i p := by
    rw [show 6 + p.length + 2 = 8 + p.length by omega]
    exact List.take_left' (mkFrame_length c i p)
  rw [htake]
  rw [if_neg (by rw [ckBytes_mkFrame, trailBytes_mkFrame]; simp)]
  refine Prod.ext ?_ ?_
  · show (pre ++ (mkFrame c i p ++ rest)).drop (pre.length + 6 + p.length + 2) = rest
    rw [show pre.length + 6 + p.length + 2 = pre.length + (8 + p.length) by omega,
      ← List.drop_drop, hdrop]
    exact List.drop_left' (mkFrame_length c i p)
  · show some ((mkFrame c i p).getD 2 0, (mkFrame c i p).getD 3 0,
        ((mkFrame c i p).drop 6).take p.length) = some (c, i, p)
    have h2 : (mkFrame c i p).getD 2 0 = c := by rw [mkFrame_cons]; rfl
    have h3 : (mkFrame c i p).getD 3 0 = i := by rw [mkFrame_cons]; rfl
    have h6 : (mkFrame c i p).drop 6 =
        p ++ [(ubxChecksum (frameBody c i p)).1, (ubxChecksum (frameBody c i p)).2] := by
      rw [mkFrame_cons]
      rfl
    rw [h2, h3, h6, List.take_left' rfl]

theorem tryParseBuf_pre_mkFrame (pre : List Nat) (c i : Nat) (p rest : List Nat)
    (h : findSync (pre ++ (mkFrame c i p ++ rest)) = some pre.length) :
    tryParseBuf (pre ++ (mkFrame c i p ++ rest)) = (rest, some (c, i, p)) := by
  unfold tryParseBuf
  rw [h]
  exact tryParseAt_valid pre c i p rest

theorem tryParseBuf_eq_tryParseAt (buf : List Nat) (idx : Nat)
    (h : findSync buf = some idx) : tryParseBuf buf = tryParseAt buf idx := by
  unfold tryParseBuf
  rw [h]

theorem tryParseBuf_mkFrame (c i : Nat) (p : List Nat) :
    tryParseBuf (mkFrame c i p) = ([], some (c, i, p)) := by
  have h := tryParseBuf_pre_mkFrame [] c i p []
    (by simpa using findSync_mkFrame c i p [])
  simpa using h

theorem tryParseBuf_take_mkFrame (c i : Nat) (p : List Nat) (m : Nat)
    (hm : m < 8 + p.length) :
    tryParseBuf ((mkFrame c i p).take m) = ((mkFrame c i p).take m, none) := by
  match m with
  | 0 => rfl
  | 1 =>
    rw [mkFrame_cons]
    show tryParseBuf [0xB5] = ([0xB5], none)
    rfl
  | (m + 2) =>
    have hcons : (mkFrame c i p).take (m + 2) =
        0xB5 :: 0x62 :: ((mkFrame c i p).drop 2).take m := by
      rw [mkFrame_cons]
      rfl
    have hlen : ((mkFrame c i p).take (m + 2)).length = m + 2 := by
      rw [List.length_take, mkFrame_length]; omega
    have hsync : findSync ((mkFrame c i p).take (m + 2)) = some 0 := by
      rw [hcons]; exact findSync_cons2 _
    rw [tryParseBuf_eq_tryParseAt _ _ hsync]
    unfold tryParseAt
    by_cases h6 : m + 2 < 6
    · rw [if_pos (by omega)]
    · rw [if_neg (by omega)]
      have hLF : lengthField ((mkFrame c i p).take (m + 2)) 0 = p.length := by
        unfold lengthField
        rw [getD_take_of_lt _ _ _ (by omega), getD_take_of_lt _ _ _ (by omega)]
        have hfull := lengthField_mkFrame c i p []
        rw [List.append_nil] at hfull
        unfold lengthField at hfull
        exact hfull
      simp only [hLF]
      rw [if_pos (by omega)]

/-- Feeding chunks that are all empty extracts nothing and leaves an empty
buffer: `_try_parse_buf` on an empty buffer finds no sync marker and keeps
the buffer as is. -/
theorem runChunks_nil_flatten (cs : List (List Nat)) (h : cs.flatten = []) :
    runChunks [] cs = ([], []) := by
  induction cs with
  | nil => rfl
  | cons ch cs ih =>
    rw [List.flatten_cons] at h
    rcases List.append_eq_nil.mp h with ⟨hc, hcs⟩
    subst hc
    unfold runChunks
    rw [show tryParseBuf (([] : List Nat) ++ []) = ([], none) from rfl, ih hcs]
    rfl

/-- Invariant step for chunked delivery: if the buffer holds a strict
prefix of a well-formed frame and the remaining chunks complete the
frame, the run extracts exactly that frame and ends with an empty buffer. -/
theorem runChunks_completes (c i : Nat) (p : List Nat) :
    ∀ (cs : List (List Nat)) (pre : List Nat),
      pre ++ cs.flatten = mkFrame c i p →
      pre.length < 8 + p.length →
      runChunks pre cs = ([], [(c, i, p)]) := by
  intro cs
  induction cs with
  | nil =>
    intro pre h hlt
    rw [List.flatten_nil, List.append_nil] at h
    have : pre.length = 8 + p.length := by rw [h, mkFrame_length]
    omega
  | cons ch cs ih =>
    intro pre h hlt
    rw [List.flatten_cons, ← List.append_assoc] at h
    unfold runChunks
    by_cases hfull : (pre ++ ch).length = 8 + p.length
    · have hjoin : cs.flatten = [] := by
        have hl := congrArg List.length h
        rw [List.length_append, mkFrame_length] at hl
        exact List.length_eq_zero.mp (by omega)
      have hframe : pre ++ ch = mkFrame c i p := by
        rw [hjoin, List.append_nil] at h
        exact h
      rw [hframe, tryParseBuf_mkFrame, runChunks_nil_flatten cs hjoin]
      rfl
    · have hle : (pre ++ ch).length ≤ 8 + p.length := by
        have hl := congrArg List.length h
        rw [List.length_append, mkFrame_length] at hl
        omega
      have hpref : pre ++ ch = (mkFrame c i p).take (pre ++ ch).length := by
        rw [← h, List.take_left]
      have hlt2 : (pre ++ ch).length < 8 + p.length := by omega
      rw [hpref, tryParseBuf_take_mkFrame c i p _ hlt2]
      have hrec := ih ((mkFrame c i p).take (pre ++ ch).length)
        (by rw [← hpref]; exact h) (by rw [← hpref]; exact hlt2)
      rw [hrec]
      rfl

/-! ### Claim theorems for the frame assembler -/

/-- C1: for every buffer whose earliest sync-marker occurrence (at index
`pre.length`) starts a complete frame — sync, class, id, little-endian
length, payload of that length, and a trailing Fletcher checksum pair, i.e.
a `mkFrame` span — `_try_parse_buf` returns exactly that frame's
`(class, id, payload)`, the returned payload's length equals the decoded
length field, and the consumed span (everything through the checksum) is
removed from the buffer, leaving exactly the bytes after the frame. -/
theorem tryParseBuf_extracts_valid_frame (pre : List Nat) (c i : Nat)
    (p rest : List Nat)
    (h : findSync (pre ++ (mkFrame c i p ++ rest)) = some pre.length) :
    tryParseBuf (pre ++ (mkFrame c i p ++ rest)) = (rest, some (c, i, p)) ∧
    lengthField (pre ++ (mkFrame c i p ++ rest)) pre.length = p.length := by
  refine ⟨tryParseBuf_pre_mkFrame pre c i p rest h, ?_⟩
  rw [lengthField_shift]
  have hLF := lengthField_mkFrame c i p rest
  rw [← List.append_nil (mkFrame c i p ++ rest)] at hLF
  rw [← List.append_nil (mkFrame c i p ++ rest)]
  simpa using hLF

theorem tryParseBuf_extracts_valid_frame_witness :
    tryParseBuf ([0] ++ (mkFrame 1 2 [5] ++ [7])) = ([7], some (1, 2, [5])) ∧
    lengthField ([0] ++ (mkFrame 1 2 [5] ++ [7])) 1 = 1 := by
  have h := tryParseBuf_extracts_valid_frame [0] 1 2 [5] [7] (by decide)
  simpa using h

/-- C2: for every well-formed frame and every way of splitting it into an
ordered sequence of chunks, feeding the chunks one at a time into an empty
buffer with one `_try_parse_buf` call after each chunk yields exactly one
extracted frame — the frame's own `(class, id, payload)` — and the same
result as delivering the whole frame as a single chunk. -/
theorem chunked_delivery_alignment_independent (c i : Nat) (p : List Nat)
    (chunks : List (List Nat)) (h : chunks.flatten = mkFrame c i p) :
    runChunks [] chunks = ([], [(c, i, p)]) ∧
    runChunks [] [mkFrame c i p] = ([], [(c, i, p)]) := by
  constructor
  · exact runChunks_completes c i p chunks []
      (by simpa using h) (by simp)
  · unfold runChunks
    simp [tryParseBuf_mkFrame]
    exact ⟨rfl, rfl⟩

theorem chunked_delivery_alignment_independent_witness :
    runChunks [] [[0xB5], [0x62], [1], [2], [0], [0], [3], [10]] =
      ([], [(1, 2, [])]) ∧
    runChunks [] [mkFrame 1 2 []] = ([], [(1, 2, [])]) :=
  chunked_delivery_alignment_independent 1 2 [] [[0xB5], [0x62], [1], [2], [0], [0], [3], [10]]
    (by decide)

/-- C3: when the earliest sync marker (at `idx`) heads a span long enough
for the complete frame announced by its length field but the trailing two
bytes differ from the computed Fletcher pair, `_try_parse_buf` removes
exactly the two sync bytes at `idx`, signals absence, and keeps every other
byte; the buffer therefore strictly shrinks by two bytes, so repeated calls
cannot stall at the same offset. -/
theorem checksum_mismatch_drops_sync_bytes (buf : List Nat) (idx : Nat)
    (hfind : findSync buf = some idx)
    (h6 : idx + 6 ≤ buf.length)
    (hT : idx + 6 + lengthField buf idx + 2 ≤ buf.length)
    (hck : ckBytes ((buf.drop idx).take (6 + lengthField buf idx + 2)) (lengthField buf idx) ≠
        trailBytes ((buf.drop idx).take (6 + lengthField buf idx + 2)) (lengthField buf idx)) :
    tryParseBuf buf = (buf.take idx ++ buf.drop (idx + 2), none) ∧
    (buf.take idx ++ buf.drop (idx + 2)).length + 2 = buf.length := by
  constructor
  · rw [tryParseBuf_eq_tryParseAt buf idx hfind]
    unfold tryParseAt
    rw [if_neg (by omega), if_neg (by omega), if_pos hck]
  · rw [List.length_append, List.length_take, List.length_drop]
    omega

theorem checksum_mismatch_drops_sync_bytes_witness :
    tryParseBuf [9, 0xB5, 0x62, 1, 2, 0, 0, 3, 11] =
      ([9, 1, 2, 0, 0, 3, 11], none) ∧
    ([9, 1, 2, 0, 0, 3, 11] : List Nat).length + 2 =
      ([9, 0xB5, 0x62, 1, 2, 0, 0, 3, 11] : List Nat).length := by
  have h := checksum_mismatch_drops_sync_bytes [9, 0xB5, 0x62, 1, 2, 0, 0, 3, 11] 1
    (by decide) (by decide) (by decide) (by decide)
  simpa using h

/-- C4 as stated is false: on a sync-free buffer `_try_parse_buf` keeps the
last TWO bytes, not at most one. The buffer `[1, 2, 3]` contains no sync
marker, and after the call the buffer is `[2, 3]` — two bytes of trailing
context remain, contradicting "no more than one byte of trailing
context". -/
theorem no_sync_keeps_two_bytes_counterexample :
    tryParseBuf [1, 2, 3] = ([2, 3], none) ∧
    ¬ ((tryParseBuf [1, 2, 3]).1.length ≤ 1) := by
  decide

/-- C4 (amended): for every buffer containing no occurrence of the 2-byte
sync marker, `_try_parse_buf` signals absence and retains at most TWO bytes
of trailing context (the buffer's last two bytes, which are the only bytes
that could combine with future input into a marker), discarding everything
before them. -/
theorem no_sync_keeps_at_most_two_bytes (buf : List Nat)
    (h : findSync buf = none) :
    tryParseBuf buf = (buf.drop (buf.length - 2), none) ∧
    (buf.drop (buf.length - 2)).length ≤ 2 := by
  constructor
  · unfold tryParseBuf
    rw [h]
    by_cases h2 : buf.length > 2
    · rw [if_pos h2]
    · rw [if_neg h2, show buf.length - 2 = 0 by omega, List.drop_zero]
  · rw [List.length_drop]
    omega

theorem no_sync_keeps_at_most_two_bytes_witness :
    tryParseBuf [1, 2, 3] = ([2, 3], none) ∧
    ([1, 2, 3] : List Nat).drop (([1, 2, 3] : List Nat).length - 2) = [2, 3] := by
  have h := no_sync_keeps_at_most_two_bytes [1, 2, 3] (by decide)
  exact ⟨by simpa using h.1, by decide⟩

/-! ### Claim theorem for the position decoder -/

/-- C5: `_parse_nav_posllh` yields no fix on payloads shorter than 28
bytes; on longer payloads it yields a fix whose latitude and longitude are
the signed little-endian raw integers at offsets 8 and 4 scaled by `1e-7`
(exactly, in rationals) and whose altitude is the signed raw height at
offset 12 converted from millimeters to meters; and on the payload built
from raw `lon = -740251000`, `lat = 407454000`, `height = 5000` it yields
latitude `40.7454`, longitude `-74.0251`, altitude `5`. -/
theorem parseNavPosllh_decodes (payload : List Nat) :
    (payload.length < 28 → parseNavPosllh payload = none) ∧
    (28 ≤ payload.length →
      parseNavPosllh payload =
        some { stamp := none
             , lat := (leI32 payload 8 : ℚ) / 10000000
             , lon := (leI32 payload 4 : ℚ) / 10000000
             , alt := (leI32 payload 12 : ℚ) / 1000 }) ∧
    parseNavPosllh
        (i32ToLeBytes 0 ++ i32ToLeBytes (-740251000) ++ i32ToLeBytes 407454000 ++
          i32ToLeBytes 5000 ++ i32ToLeBytes 0 ++ List.replicate 8 0) =
      some { stamp := none
           , lat := 407454 / 10000
           , lon := -740251 / 10000
           , alt := 5 } := by
  refine ⟨fun h => by rw [parseNavPosllh, if_pos h], fun h => ?_, ?_⟩
  · rw [parseNavPosllh, if_neg (by omega)]
    simp only [NavFix.mk.injEq, Option.some.injEq]
    refine ⟨trivial, by ring, by ring, trivial⟩
  · have hpay : i32ToLeBytes 0 ++ i32ToLeBytes (-740251000) ++ i32ToLeBytes 407454000 ++
        i32ToLeBytes 5000 ++ i32ToLeBytes 0 ++ List.replicate 8 0 =
        [0, 0, 0, 0, 136, 170, 224, 211, 48, 65, 73, 24, 136, 19, 0, 0,
         0, 0, 0, 0, 0, 0, 0, 0, 0, 0, 0, 0] := by decide
    rw [hpay, parseNavPosllh, if_neg (by decide)]
    have hlon : leI32 [0, 0, 0, 0, 136, 170, 224, 211, 48, 65, 73, 24, 136, 19, 0, 0,
        0, 0, 0, 0, 0, 0, 0, 0, 0, 0, 0, 0] 4 = -740251000 := by decide
    have hlat : leI32 [0, 0, 0, 0, 136, 170, 224, 211, 48, 65, 73, 24, 136, 19, 0, 0,
        0, 0, 0, 0, 0, 0, 0, 0, 0, 0, 0, 0] 8 = 407454000 := by decide
    have halt : leI32 [0, 0, 0, 0, 136, 170, 224, 211, 48, 65, 73, 24, 136, 19, 0, 0,
        0, 0, 0, 0, 0, 0, 0, 0, 0, 0, 0, 0] 12 = 5000 := by decide
    rw [hlon, hlat, halt]
    norm_num

theorem parseNavPosllh_decodes_witness :
    parseNavPosllh [1, 2, 3] = none ∧
    parseNavPosllh
        (i32ToLeBytes 0 ++ i32ToLeBytes (-740251000) ++ i32ToLeBytes 407454000 ++
          i32ToLeBytes 5000 ++ i32ToLeBytes 0 ++ List.replicate 8 0) =
      some { stamp := none
           , lat := 407454 / 10000
           , lon := -740251 / 10000
           , alt := 5 } :=
  ⟨(parseNavPosllh_decodes [1, 2, 3]).1 (by decide),
   (parseNavPosllh_decodes []).2.2⟩

/-! ### Packet serializer lemmas: the emitted JSON text never contains a
newline character. -/

theorem digitChar_range (m : Nat) :
    48 ≤ (digitChar m).toNat ∧ (digitChar m).toNat ≤ 57 := by
  match m with
  | 0 => decide
  | 1 => decide
  | 2 => decide
  | 3 => decide
  | 4 => decide
  | 5 => decide
  | 6 => decide
  | 7 => decide
  | 8 => decide
  | (n + 9) => exact (by decide : 48 ≤ ('9' : Char).toNat ∧ ('9' : Char).toNat ≤ 57)

theorem digitCharsGo_range (fuel : Nat) :
    ∀ (n : Nat) (acc : List Char),
      (∀ c ∈ acc, 48 ≤ c.toNat ∧ c.toNat ≤ 57) →
      ∀ c ∈ digitCharsGo fuel n acc, 48 ≤ c.toNat ∧ c.toNat ≤ 57 := by
  induction fuel with
  | zero =>
    intro n acc hacc c hc
    cases n <;> exact hacc c hc
  | succ fuel ih =>
    intro n acc hacc c hc
    cases n with
    | zero => exact hacc c hc
    | succ n =>
      refine ih _ _ ?_ c hc
      intro d hd
      rcases List.mem_cons.mp hd with h | h
      · subst h; exact digitChar_range _
      · exact hacc d h

theorem digitChars_range (n : Nat) :
    ∀ c ∈ digitChars n, 48 ≤ c.toNat ∧ c.toNat ≤ 57 := by
  unfold digitChars
  split
  · intro c hc
    rcases List.mem_singleton.mp hc with rfl
    decide
  · exact digitCharsGo_range n n [] (by intro c hc; simp at hc)

theorem digitChars_ne_newline (n : Nat) : ∀ d ∈ digitChars n, d ≠ '\n' := by
  intro d hd h
  have hr := digitChars_range n d hd
  subst h
  exact absurd hr (by decide)

theorem hexDigitChar_ne_newline (m : Nat) : hexDigitChar m ≠ '\n' := by
  match m with
  | 0 => decide
  | 1 => decide
  | 2 => decide
  | 3 => decide
  | 4 => decide
  | 5 => decide
  | 6 => decide
  | 7 => decide
  | 8 => decide
  | 9 => decide
  | 10 => decide
  | 11 => decide
  | 12 => decide
  | 13 => decide
  | 14 => decide
  | (n + 15) => exact (by decide : ('f' : Char) ≠ '\n')

theorem escapeChar_ne_newline (c : Char) : ∀ d ∈ escapeChar c, d ≠ '\n' := by
  intro d hd
  unfold escapeChar at hd
  split at hd
  · rcases List.mem_cons.mp hd with rfl | hd
    · decide
    · rcases List.mem_singleton.mp hd with rfl; decide
  split at hd
  · rcases List.mem_cons.mp hd with rfl | hd
    · decide
    · rcases List.mem_singleton.mp hd with rfl; decide
  split at hd
  · rcases List.mem_cons.mp hd with rfl | hd
    · decide
    · rcases List.mem_singleton.mp hd with rfl; decide
  split at hd
  · rcases List.mem_cons.mp hd with rfl | hd
    · decide
    · rcases List.mem_singleton.mp hd with rfl; decide
  split at hd
  · rcases List.mem_cons.mp hd with rfl | hd
    · decide
    · rcases List.mem_singleton.mp hd with rfl; decide
  rename_i hq hb hn hr ht
  split at hd
  · rcases List.mem_cons.mp hd with rfl | hd
    · decide
    rcases List.mem_cons.mp hd with rfl | hd
    · decide
    rcases List.mem_cons.mp hd with rfl | hd
    · decide
    rcases List.mem_cons.mp hd with rfl | hd
    · decide
    rcases List.mem_cons.mp hd with rfl | hd
    · exact hexDigitChar_ne_newline _
    rcases List.mem_singleton.mp hd with rfl
    exact hexDigitChar_ne_newline _
  · rcases List.mem_singleton.mp hd with rfl
    exact hn

theorem escapeString_ne_newline (s : String) : ∀ d ∈ escapeString s, d ≠ '\n' := by
  intro d hd
  unfold escapeString at hd
  rcases List.mem_flatten.mp hd with ⟨l, hl, hdl⟩
  rcases List.mem_map.mp hl with ⟨c, _, rfl⟩
  exact escapeChar_ne_newline c d hdl

theorem mem_sepList {xs : List (List Char)} {d : Char} (hd : d ∈ sepList xs) :
    d = ',' ∨ ∃ x ∈ xs, d ∈ x := by
  induction xs with
  | nil => simp [sepList] at hd
  | cons x t ih =>
    cases t with
    | nil =>
      right
      exact ⟨x, by simp, by simpa [sepList] using hd⟩
    | cons y t2 =>
      rw [sepList] at hd
      rcases List.mem_append.mp hd with h | h
      · right; exact ⟨x, by simp, h⟩
      · rcases List.mem_cons.mp h with h | h
        · left; exact h
        · rcases ih h with h | ⟨z, hz, hdz⟩
          · left; exact h
          · right; exact ⟨z, List.mem_cons_of_mem _ hz, hdz⟩

theorem renderInt_ne_newline (x : Int) : ∀ d ∈ renderInt x, d ≠ '\n' := by
  intro d hd
  unfold renderInt at hd
  rcases List.mem_append.mp hd with h | h
  · split at h
    · rcases List.mem_singleton.mp h with rfl; decide
    · simp at h
  · exact digitChars_ne_newline _ d h

theorem renderRat_ne_newline (q : ℚ) : ∀ d ∈ renderRat q, d ≠ '\n' := by
  intro d hd
  unfold renderRat at hd
  rcases List.mem_append.mp hd with h | h
  · exact renderInt_ne_newline _ d h
  · split at h
    · simp at h
    · rcases List.mem_cons.mp h with rfl | h
      · decide
      · exact digitChars_ne_newline _ d h

theorem sepList_renderRat_ne_newline (qs : List ℚ) :
    ∀ d ∈ sepList (qs.map renderRat), d ≠ '\n' := by
  intro d hd
  rcases mem_sepList hd with rfl | ⟨x, hx, hdx⟩
  · decide
  · rcases List.mem_map.mp hx with ⟨q, _, rfl⟩
    exact renderRat_ne_newline q d hdx

theorem serializeImu_ne_newline (m : ImuSample) :
    ∀ d ∈ serializeImu m, d ≠ '\n' := by
  intro d hd
  unfold serializeImu at hd
  rcases List.mem_cons.mp hd with rfl | hd
  · decide
  rcases List.mem_append.mp hd with hd | hd
  rotate_left
  · rcases List.mem_cons.mp hd with rfl | hd
    · decide
    rcases List.mem_singleton.mp hd with rfl; decide
  rcases List.mem_append.mp hd with hd | hd
  rotate_left
  · exact sepList_renderRat_ne_newline _ d hd
  rcases List.mem_append.mp hd with hd | hd
  rotate_left
  · have : ∀ d ∈ "],\"gyro\":[".toList, d ≠ '\n' := by decide
    exact this d hd
  rcases List.mem_append.mp hd with hd | hd
  · have : ∀ d ∈ "\"accel\":[".toList, d ≠ '\n' := by decide
    exact this d hd
  · exact sepList_renderRat_ne_newline _ d hd

theorem serializeJVal_ne_newline (v : JVal) : ∀ d ∈ serializeJVal v, d ≠ '\n' := by
  intro d hd
  cases v with
  | null =>
    have : ∀ d ∈ "null".toList, d ≠ '\n' := by decide
    exact this d hd
  | jstr s =>
    unfold serializeJVal at hd
    rcases List.mem_cons.mp hd with rfl | hd
    · decide
    rcases List.mem_append.mp hd with hd | hd
    · exact escapeString_ne_newline s d hd
    · rcases List.mem_singleton.mp hd with rfl; decide
  | jnum q => exact renderRat_ne_newline q d hd
  | jint x => exact renderInt_ne_newline x d hd
  | jimu m => exact serializeImu_ne_newline m d hd

theorem serializeField_ne_newline (kv : String × JVal) :
    ∀ d ∈ serializeField kv, d ≠ '\n' := by
  intro d hd
  unfold serializeField at hd
  rcases List.mem_cons.mp hd with rfl | hd
  · decide
  rcases List.mem_append.mp hd with hd | hd
  rotate_left
  · exact serializeJVal_ne_newline _ d hd
  rcases List.mem_append.mp hd with hd | hd
  · exact escapeString_ne_newline _ d hd
  · rcases List.mem_cons.mp hd with rfl | hd
    · decide
    rcases List.mem_singleton.mp hd with rfl; decide

theorem serializeObj_ne_newline (fields : List (String × JVal)) :
    ∀ d ∈ serializeObj fields, d ≠ '\n' := by
  intro d hd
  unfold serializeObj at hd
  rcases List.mem_cons.mp hd with rfl | hd
  · decide
  rcases List.mem_append.mp hd with hd | hd
  · rcases mem_sepList hd with rfl | ⟨x, hx, hdx⟩
    · decide
    · rcases List.mem_map.mp hx with ⟨kv, _, rfl⟩
      exact serializeField_ne_newline kv d hdx
  · rcases List.mem_singleton.mp hd with rfl; decide

/-! ### Claim theorems for the packet codec -/

/-- C6 counterexample: the claim says `ts` is the fix's own timestamp
whenever one is present, but `make_packet` tests the stamp with `if not
ts:`, which also treats a present-but-empty timestamp as absent: a fix
carrying the (present) stamp `""` is encoded with the encode-time
timestamp, not with its own stamp. -/
theorem make_packet_empty_stamp_counterexample :
    (makePacketObj
        { stamp := some "", lat := none, lon := none, alt := none, fix := none,
          num_sats := none, hdop := none, imu := none }
        "2026-01-01T00:00:00Z").lookup "ts" =
      some (JVal.jstr "2026-01-01T00:00:00Z") ∧
    some ("" : String) ≠ (none : Option String) ∧
    JVal.jstr "2026-01-01T00:00:00Z" ≠ JVal.jstr "" := by
  refine ⟨?_, by decide, by decide⟩
  simp [makePacketObj, List.lookup, tsValue]

/-- C6 (amended): `make_packet` produces the compact JSON object whose keys
are exactly `ts, lat, lon, alt, fix, sats, hdop` in that order — each of
the six positional/quality keys serialized as `null` exactly when the
corresponding fix field is absent — plus an `imu` key present (with the
fix's inertial sample) if and only if the fix carries one, and omitted
entirely (not `null`) otherwise; `ts` is the fix's own timestamp when that
timestamp is present AND non-empty, and the encode-time timestamp `now`
otherwise (Python's `if not ts:` also replaces an empty stamp); the output
is the object's compact serialization and contains no newline
character. -/
theorem make_packet_shape (f : Fix) (now : String) :
    ((makePacketObj f now).map Prod.fst =
      ["ts", "lat", "lon", "alt", "fix", "sats", "hdop"] ++
        (if f.imu.isSome then ["imu"] else [])) ∧
    ((makePacketObj f now).lookup "lat" = some JVal.null ↔ f.lat = none) ∧
    ((makePacketObj f now).lookup "lon" = some JVal.null ↔ f.lon = none) ∧
    ((makePacketObj f now).lookup "alt" = some JVal.null ↔ f.alt = none) ∧
    ((makePacketObj f now).lookup "fix" = some JVal.null ↔ f.fix = none) ∧
    ((makePacketObj f now).lookup "sats" = some JVal.null ↔ f.num_sats = none) ∧
    ((makePacketObj f now).lookup "hdop" = some JVal.null ↔ f.hdop = none) ∧
    ((makePacketObj f now).lookup "imu" = f.imu.map JVal.jimu) ∧
    (∀ s, f.stamp = some s → s ≠ "" →
      (makePacketObj f now).lookup "ts" = some (JVal.jstr s)) ∧
    ((f.stamp = none ∨ f.stamp = some "") →
      (makePacketObj f now).lookup "ts" = some (JVal.jstr now)) ∧
    makePacket f now = serializeObj (makePacketObj f now) ∧
    '\n' ∉ makePacket f now := by
  refine ⟨?_, ?_, ?_, ?_, ?_, ?_, ?_, ?_, ?_, ?_, rfl, ?_⟩
  · cases h : f.imu <;> simp [makePacketObj, h]
  · cases h : f.lat <;> simp [makePacketObj, List.lookup, optNum, h]
  · cases h : f.lon <;> simp [makePacketObj, List.lookup, optNum, h]
  · cases h : f.alt <;> simp [makePacketObj, List.lookup, optNum, h]
  · cases h : f.fix <;> simp [makePacketObj, List.lookup, optInt, h]
  · cases h : f.num_sats <;> simp [makePacketObj, List.lookup, optInt, h]
  · cases h : f.hdop <;> simp [makePacketObj, List.lookup, optNum, h]
  · cases h : f.imu <;> simp [makePacketObj, List.lookup, h]
  · intro s hs hne
    simp [makePacketObj, List.lookup, tsValue, hs, hne]
  · intro hs
    rcases hs with hs | hs <;> simp [makePacketObj, List.lookup, tsValue, hs]
  · intro hmem
    exact serializeObj_ne_newline (makePacketObj f now) '\n' hmem rfl

theorem make_packet_shape_witness :
    ((makePacketObj
        { stamp := some "2026-02-03T04:05:06Z", lat := some (407454 / 10000),
          lon := some (-740251 / 10000), alt := none, fix := none,
          num_sats := none, hdop := none, imu := none }
        "2026-01-01T00:00:00Z").lookup "ts" =
      some (JVal.jstr "2026-02-03T04:05:06Z")) ∧
    ((makePacketObj
        { stamp := some "2026-02-03T04:05:06Z", lat := some (407454 / 10000),
          lon := some (-740251 / 10000), alt := none, fix := none,
          num_sats := none, hdop := none, imu := none }
        "2026-01-01T00:00:00Z").lookup "alt" = some JVal.null) ∧
    ((makePacketObj
        { stamp := some "2026-02-03T04:05:06Z", lat := some (407454 / 10000),
          lon := some (-740251 / 10000), alt := none, fix := none,
          num_sats := none, hdop := none, imu := none }
        "2026-01-01T00:00:00Z").lookup "imu" = none) := by
  have h := make_packet_shape
    { stamp := some "2026-02-03T04:05:06Z", lat := some (407454 / 10000),
      lon := some (-740251 / 10000), alt := none, fix := none,
      num_sats := none, hdop := none, imu := none }
    "2026-01-01T00:00:00Z"
  refine ⟨h.2.2.2.2.2.2.2.2.1 "2026-02-03T04:05:06Z" rfl (by decide), ?_, ?_⟩
  · exact (h.2.2.2.1).mpr rfl
  · simpa using h.2.2.2.2.2.2.2.1

/-! ### Claim theorems for the LoRa link -/

/-- C7: a command-mode send succeeds if and only if some line collected
during the response window contains, case-insensitively, `OK` or `SEND` as
a substring; in particular a channel that replies `"OK\r\n"` before the
deadline yields success, and a channel with no reply before the deadline
yields failure with an empty collected response. -/
theorem cmd_send_success_iff_token (ls : List String) :
    (sendPacketCmd (CmdOutcome.lines ls) = true ↔
      ∃ l ∈ collectResponses ls, isSuccessLine l = true) ∧
    sendPacketCmd (CmdOutcome.lines ["OK\r\n"]) = true ∧
    sendPacketCmd (CmdOutcome.lines []) = false ∧
    collectResponses [] = [] := by
  refine ⟨?_, by decide, by decide, rfl⟩
  show (if collectResponses ls = [] then false
      else (collectResponses ls).any isSuccessLine) = true ↔ _
  by_cases h : collectResponses ls = []
  · rw [if_pos h, h]
    simp
  · rw [if_neg h]
    exact List.any_eq_true

/-- C8: a transparent-mode send whose channel `write` and `flush` calls
both complete reports success regardless of the accepted byte count —
a partial write (fewer bytes accepted than requested) still reports
success — and in either mode a raised channel exception is caught and
reported as failure instead of propagating. -/
theorem send_reports_channel_errors (payload : List Nat) :
    (∀ n : Nat, sendPacketTransparent payload (Except.ok n) (Except.ok ()) = true) ∧
    sendPacketTransparent [1, 2, 3] (Except.ok 1) (Except.ok ()) = true ∧
    (∀ (e : String) (fl : Except String Unit),
      sendPacketTransparent payload (Except.error e) fl = false) ∧
    (∀ (n : Nat) (e : String),
      sendPacketTransparent payload (Except.ok n) (Except.error e) = false) ∧
    sendPacketCmd CmdOutcome.raised = false :=
  ⟨fun _ => rfl, rfl, fun _ _ => rfl, fun _ _ => rfl, rfl⟩

/-- C9: the command-mode response deadline stored at construction is
`max(timeout, 1.0)`: it never drops below the 1-second floor however small
the generic channel timeout is, and equals the generic timeout whenever
that is at least the floor. -/
theorem at_response_timeout_floor (t : ℚ) :
    atResponseTimeout t = max t 1 ∧
    1 ≤ atResponseTimeout t ∧
    (1 ≤ t → atResponseTimeout t = t) ∧
    (t ≤ 1 → atResponseTimeout t = 1) := by
  refine ⟨rfl, le_max_right t 1, fun h => max_eq_left h, fun h => max_eq_right h⟩

theorem at_response_timeout_floor_witness :
    atResponseTimeout 0 = 1 ∧ 1 ≤ atResponseTimeout 0 :=
  ⟨(at_response_timeout_floor 0).2.2.2 zero_le_one,
   (at_response_timeout_floor 0).2.1⟩

/-! ### AT-command sanitization lemmas (C10).

Both decode branches of `_build_at_send_command` agree on the ASCII
content: a successful UTF-8 decode maps each ASCII byte to itself and each
multi-byte sequence to one code point at or above 128 (which the final
ASCII encode with `errors="ignore"` drops), and the latin-1 fallback maps
every byte to its own code point. -/

theorem utf8Step_spec (b : Nat) (rest : List Nat) (cp : Nat) (rest2 : List Nat)
    (h : utf8Step b rest = some (cp, rest2)) :
    (cp = b ∧ b < 128 ∧ rest2 = rest) ∨
    (128 ≤ cp ∧ 128 ≤ b ∧ ∃ pre, rest = pre ++ rest2 ∧ ∀ x ∈ pre, 128 ≤ x) := by
  unfold utf8Step at h
  by_cases h1 : b < 0x80
  · rw [if_pos h1] at h
    injection h with h
    injection h with hcp hrest
    exact Or.inl ⟨hcp.symm, h1, hrest.symm⟩
  rw [if_neg h1] at h
  by_cases h2 : b < 0xC2
  · rw [if_pos h2] at h
    exact absurd h (by simp)
  rw [if_neg h2] at h
  by_cases h3 : b < 0xE0
  · rw [if_pos h3] at h
    match rest, h with
    | [], h => exact absurd h (by simp)
    | c1 :: r2, h =>
      dsimp only [] at h
      split at h
      case isTrue hc =>
        injection h with h
        injection h with hcp hrest
        refine Or.inr ⟨by omega, by omega, [c1], ?_, ?_⟩
        · rw [← hrest]
          rfl
        · intro x hx
          rcases List.mem_singleton.mp hx with rfl
          omega
      case isFalse => exact absurd h (by simp)
  rw [if_neg h3] at h
  by_cases h4 : b < 0xF0
  · rw [if_pos h4] at h
    match rest, h with
    | [], h => exact absurd h (by simp)
    | [c1], h => exact absurd h (by simp)
    | c1 :: c2 :: r2, h =>
      dsimp only [] at h
      split at h
      case isTrue hc =>
        obtain ⟨hc1, hc2, he0, hed⟩ := hc
        injection h with h
        injection h with hcp hrest
        have hcp128 : 128 ≤ cp := by
          rw [← hcp]
          by_cases hb : b = 0xE0
          · have := he0 hb; omega
          · omega
        refine Or.inr ⟨hcp128, by omega, [c1, c2], by rw [← hrest]; rfl, ?_⟩
        intro x hx
        rcases List.mem_cons.mp hx with rfl | hx
        · omega
        rcases List.mem_singleton.mp hx with rfl
        omega
      case isFalse => exact absurd h (by simp)
  rw [if_neg h4] at h
  by_cases h5 : b < 0xF5
  · rw [if_pos h5] at h
    match rest, h with
    | [], h => exact absurd h (by simp)
    | [c1], h => exact absurd h (by simp)
    | [c1, c2], h => exact absurd h (by simp)
    | c1 :: c2 :: c3 :: r2, h =>
      dsimp only [] at h
      split at h
      case isTrue hc =>
        obtain ⟨hc1, hc2, hc3, hf0, hf4⟩ := hc
        injection h with h
        injection h with hcp hrest
        have hcp128 : 128 ≤ cp := by
          rw [← hcp]
          by_cases hb : b = 0xF0
          · have := hf0 hb; omega
          · omega
        refine Or.inr ⟨hcp128, by omega, [c1, c2, c3], by rw [← hrest]; rfl, ?_⟩
        intro x hx
        rcases List.mem_cons.mp hx with rfl | hx
        · omega
        rcases List.mem_cons.mp hx with rfl | hx
        · omega
        rcases List.mem_singleton.mp hx with rfl
        omega
      case isFalse => exact absurd h (by simp)
  · rw [if_neg h5] at h
    exact absurd h (by simp)

theorem utf8DecodeGo_ascii_filter :
    ∀ (fuel : Nat) (bs : List Nat) (cps : List Nat), utf8DecodeGo fuel bs = some cps →
      cps.filter (fun c => decide (c < 128)) =
        bs.filter (fun b => decide (b < 128)) := by
  intro fuel
  induction fuel with
  | zero =>
    intro bs cps hdec
    match bs, hdec with
    | [], hdec =>
      injection hdec with h
      subst h
      rfl
    | _ :: _, hdec => exact absurd hdec (by simp [utf8DecodeGo])
  | succ fuel ih =>
    intro bs cps hdec
    match bs, hdec with
    | [], hdec =>
      injection hdec with h
      subst h
      rfl
    | b :: rest, hdec =>
      rw [utf8DecodeGo] at hdec
      match hstep : utf8Step b rest with
      | none => rw [hstep] at hdec; exact absurd hdec (by simp)
      | some (cp, rest2) =>
        rw [hstep] at hdec
        rcases Option.map_eq_some'.mp hdec with ⟨tail, htail, rfl⟩
        have hIH := ih rest2 tail htail
        rcases utf8Step_spec b rest cp rest2 hstep with
          ⟨hcp, hb, hr⟩ | ⟨hcp, hb, pre, hr, hpre⟩
        · subst hcp
          subst hr
          simp [List.filter_cons, hb, hIH]
        · subst hr
          have hprefil : pre.filter (fun x => decide (x < 128)) = [] :=
            List.filter_eq_nil_iff.mpr fun a ha => by
              have := hpre a ha
              simp
              omega
          simp [List.filter_cons, List.filter_append, hprefil,
            show ¬(cp < 128) by omega, show ¬(b < 128) by omega, hIH]

theorem utf8Decode_ascii_filter (bs : List Nat) (cps : List Nat)
    (hdec : utf8Decode bs = some cps) :
    cps.filter (fun c => decide (c < 128)) =
      bs.filter (fun b => decide (b < 128)) :=
  utf8DecodeGo_ascii_filter bs.length bs cps hdec


theorem filter_length_lt {p : Nat → Bool} (l : List Nat)
    (h : ∃ b ∈ l, ¬ p b) : (l.filter p).length < l.length := by
  induction l with
  | nil => simp at h
  | cons a t ih =>
    rcases h with ⟨b, hb, hpb⟩
    rcases List.mem_cons.mp hb with rfl | hbt
    · rw [List.filter_cons_of_neg hpb]
      have := List.length_filter_le p t
      simp only [List.length_cons]
      omega
    · by_cases hpa : p a
      · rw [List.filter_cons_of_pos hpa]
        have := ih ⟨b, hbt, hpb⟩
        simp only [List.length_cons]
        omega
      · rw [List.filter_cons_of_neg hpa]
        have := List.length_filter_le p t
        simp only [List.length_cons]
        omega

theorem decDigits_lt128 (n : Nat) : ∀ d ∈ decDigits n, d < 128 := by
  intro d hd
  rcases List.mem_map.mp hd with ⟨c, hc, rfl⟩
  have := digitChars_range n c hc
  omega

theorem decodeFallback_filter (payload : List Nat) (r : Nat → Bool) :
    (match utf8Decode payload with
      | some cps => cps
      | none => payload).filter (fun a => decide (a < 128) && r a) =
      payload.filter (fun a => decide (a < 128) && r a) := by
  match hdec : utf8Decode payload with
  | none => rfl
  | some cps =>
    have key := utf8Decode_ascii_filter payload cps hdec
    have hcomm : ∀ (l : List Nat), l.filter (fun a => decide (a < 128) && r a) =
        (l.filter (fun c => decide (c < 128))).filter r := by
      intro l
      rw [List.filter_filter]
      simp only [Bool.and_comm]
    show cps.filter (fun a => decide (a < 128) && r a) = _
    rw [hcomm cps, hcomm payload, key]

theorem buildAtSendCommand_eq (payload : List Nat) :
    buildAtSendCommand payload =
      ("AT+SEND=".data.map Char.toNat) ++ decDigits payload.length ++ [44] ++
        payload.filter
          (fun b => decide (b < 128) && (!(b == 13) && !(b == 10))) := by
  unfold buildAtSendCommand
  rw [List.filter_append, List.filter_append, List.filter_append]
  have hhdr : ("AT+SEND=".data.map Char.toNat).filter (fun c => decide (c < 128)) =
      "AT+SEND=".data.map Char.toNat := by decide
  have hdig : (decDigits payload.length).filter (fun c => decide (c < 128)) =
      decDigits payload.length :=
    List.filter_eq_self.mpr fun a ha => by
      simpa using decDigits_lt128 payload.length a ha
  have hcomma : ([44] : List Nat).filter (fun c => decide (c < 128)) = [44] := by decide
  rw [hhdr, hdig, hcomma, List.filter_filter]
  exact congrArg _ (decodeFallback_filter payload _)

/-! ### Claim theorem for the AT command builder -/

/-- C10: the AT command is
`AT+SEND=<len(payload)>,<sanitized>` where the declared length is the byte
length of the ORIGINAL payload while the embedded text keeps exactly the
ASCII bytes of the payload that are not CR or LF (UTF-8 decode or latin-1
fallback followed by CR/LF stripping and ASCII-encode with
`errors="ignore"`); every byte of the command is ASCII; and whenever the
payload contains a CR, LF, or non-ASCII byte, the embedded text is
strictly shorter than the declared length. -/
theorem at_command_declared_length_vs_text (payload : List Nat) :
    (buildAtSendCommand payload =
      ("AT+SEND=".data.map Char.toNat) ++ decDigits payload.length ++ [44] ++
        payload.filter
          (fun b => decide (b < 128) && (!(b == 13) && !(b == 10)))) ∧
    (∀ b ∈ buildAtSendCommand payload, b < 128) ∧
    ((∃ b ∈ payload, 128 ≤ b ∨ b = 13 ∨ b = 10) →
      (payload.filter
          (fun b => decide (b < 128) && (!(b == 13) && !(b == 10)))).length <
        payload.length) := by
  refine ⟨buildAtSendCommand_eq payload, ?_, ?_⟩
  · intro b hb
    unfold buildAtSendCommand at hb
    have := List.of_mem_filter hb
    simpa using this
  · intro hbad
    apply filter_length_lt
    rcases hbad with ⟨b, hb, hval⟩
    refine ⟨b, hb, ?_⟩
    rcases hval with h128 | h13 | h10
    · simp [show ¬(b < 128) by omega]
    · simp [h13]
    · simp [h10]

theorem at_command_declared_length_vs_text_witness :
    (buildAtSendCommand [104, 105, 10, 226, 130, 172] =
      ("AT+SEND=".data.map Char.toNat) ++
        decDigits ([104, 105, 10, 226, 130, 172] : List Nat).length ++ [44] ++
        ([104, 105, 10, 226, 130, 172] : List Nat).filter
          (fun b => decide (b < 128) && (!(b == 13) && !(b == 10)))) ∧
    (∀ b ∈ buildAtSendCommand [104, 105, 10, 226, 130, 172], b < 128) ∧
    (([104, 105, 10, 226, 130, 172] : List Nat).filter
        (fun b => decide (b < 128) && (!(b == 13) && !(b == 10)))).length <
      ([104, 105, 10, 226, 130, 172] : List Nat).length := by
  have h := at_command_declared_length_vs_text [104, 105, 10, 226, 130, 172]
  exact ⟨h.1, h.2.1, h.2.2 (by decide)⟩

end Baja
